import Mathlib

/-!
Verification development for the time-series indicator engine in
`src/market.py`: EMA indicator computation (`TechnicalIndicator`),
calendar-year partitioning (`TimeSeriesSplit.split_by_intervals`) and the
query path (`display_candlestick`).

Modelling choices, all taken from the source:
* Machine reals are modelled as `ℚ` (exact arithmetic); the floating-point
  tolerances of the spec are compared against exact rational differences.
* A pandas `DataFrame` with a `DatetimeIndex` is modelled as `Frame`:
  a timestamp index plus the four OHLC columns plus an association list of
  named derived columns.
* Timestamps are naive local timestamps at second resolution (the data is
  hourly), ordered chronologically.
* Python exceptions (`KeyError` from dict/column lookup, `ValueError` from
  pandas argument validation) become `Except String`.
-/

set_option maxRecDepth 4000

/-- A naive (timezone-free) timestamp at second resolution, as stored in the
`date` index of the ingested frame. -/
structure Timestamp where
  year : Nat
  month : Nat
  day : Nat
  hour : Nat
  minute : Nat
  second : Nat
deriving DecidableEq, Repr

/-- Chronological (lexicographic) comparison of naive timestamps, as pandas
compares `DatetimeIndex` labels. -/
def Timestamp.le (a b : Timestamp) : Bool :=
  if a.year ≠ b.year then decide (a.year < b.year)
  else if a.month ≠ b.month then decide (a.month < b.month)
  else if a.day ≠ b.day then decide (a.day < b.day)
  else if a.hour ≠ b.hour then decide (a.hour < b.hour)
  else if a.minute ≠ b.minute then decide (a.minute < b.minute)
  else decide (a.second ≤ b.second)

/-- A calendar-valid timestamp: month in 1..12, day in 1..31, and clock
fields in range.  Every timestamp parsed by `pd.to_datetime` satisfies
this. -/
def validTs (t : Timestamp) : Prop :=
  1 ≤ t.month ∧ t.month ≤ 12 ∧ 1 ≤ t.day ∧ t.day ≤ 31 ∧
    t.hour ≤ 23 ∧ t.minute ≤ 59 ∧ t.second ≤ 59

instance (t : Timestamp) : Decidable (validTs t) := by
  unfold validTs; infer_instance

/-- The tabular structure manipulated by the source: the datetime index, the
four OHLC price columns, and the named derived (indicator) columns added
afterwards.  Column values are kept in lockstep with the index by
position. -/
structure Frame where
  index : List Timestamp
  open_ : List ℚ
  high : List ℚ
  low : List ℚ
  close : List ℚ
  cols : List (String × List ℚ)
deriving DecidableEq, Repr

/-- Column assignment `df[name] = vals`: replaces the column when the name
already exists, appends a new column otherwise. -/
def setCol (name : String) (vals : List ℚ) (cols : List (String × List ℚ)) :
    List (String × List ℚ) :=
  if cols.any (fun c => c.1 = name) then
    cols.map (fun c => if c.1 = name then (name, vals) else c)
  else cols ++ [(name, vals)]

/-- Accumulator loop of `Series.ewm(span=w).mean()` with pandas defaults
(`adjust=True`, `min_periods=0`): carries the running weighted numerator and
the running weight sum, and emits their quotient at every position. -/
def ewmaAux (α : ℚ) (num den : ℚ) : List ℚ → List ℚ
  | [] => []
  | x :: xs =>
    let num1 := (1 - α) * num + x
    let den1 := (1 - α) * den + 1
    num1 / den1 :: ewmaAux α num1 den1 xs

/-- `TechnicalIndicator.calc_ema`: `self.data['close'].ewm(span=spans).mean()`
with the pandas defaults (`adjust=True`), smoothing factor `α = 2/(span+1)`. -/
def calc_ema (spans : Nat) (close : List ℚ) : List ℚ :=
  ewmaAux (2 / ((spans : ℚ) + 1)) 0 0 close

/-- The column name `f'ema_(interval)'` used by `TechnicalIndicator`. -/
def emaName (w : Nat) : String := "ema_" ++ toString w

/-- `self.intervals` of `TechnicalIndicator.__init__`: the fixed smoothing
spans. -/
def emaIntervals : List Nat := [9, 12, 21, 30, 50, 80, 100, 200]

/-- The column-adding loop of `TechnicalIndicator.__init__`:
`for interval in intervals: self.data[f'ema_(interval)'] = self.calc_ema(interval)`. -/
def addEmas : List Nat → Frame → Frame
  | [], f => f
  | w :: ws, f =>
    addEmas ws { f with cols := setCol (emaName w) (calc_ema w f.close) f.cols }

/-- `TechnicalIndicator(df)`: enriches the frame with one EMA column per
configured span.  (The source mutates `df` in place; here the enriched frame
is returned as a value.) -/
def TechnicalIndicator (f : Frame) : Frame := addEmas emaIntervals f

/-- `calc_ema` including the argument validation pandas performs:
`ewm(span=s)` raises `ValueError` unless `span >= 1`. -/
def calc_ema_checked (spans : Nat) (close : List ℚ) : Except String (List ℚ) :=
  if spans < 1 then .error "span must satisfy: span >= 1"
  else .ok (calc_ema spans close)

/-- `TechnicalIndicator.__init__` generalised over the span list (the source
hardcodes `emaIntervals`), with the pandas span validation made explicit: the
loop aborts with the library error at the first invalid span, and performs no
validation of its own (duplicates silently overwrite). -/
def TechnicalIndicatorWith : List Nat → Frame → Except String Frame
  | [], f => .ok f
  | w :: ws, f =>
    match calc_ema_checked w f.close with
    | .error e => .error e
    | .ok vals => TechnicalIndicatorWith ws { f with cols := setCol (emaName w) vals f.cols }

/-- Restriction of a value column to the rows whose timestamp satisfies the
slice predicate (columns are kept positionally aligned with the index). -/
def filterByIndex (idx : List Timestamp) (p : Timestamp → Bool)
    (vals : List ℚ) : List ℚ :=
  ((idx.zip vals).filter (fun iv => p iv.1)).map Prod.snd

/-- `self.data.loc[since:till]` on a monotone `DatetimeIndex`: keeps exactly
the rows whose timestamp lies in the closed interval `[lo, hi]`, all columns
included, preserving row order. -/
def locSlice (f : Frame) (lo hi : Timestamp) : Frame :=
  let p := fun t => lo.le t && t.le hi
  { index := f.index.filter p
    open_ := filterByIndex f.index p f.open_
    high := filterByIndex f.index p f.high
    low := filterByIndex f.index p f.low
    close := filterByIndex f.index p f.close
    cols := f.cols.map (fun c => (c.1, filterByIndex f.index p c.2)) }

/-- Lower endpoint of the slice for year `y`: the partial-string label
`f'(year)-01-01'` resolves to the start of that day. -/
def yearStart (y : Nat) : Timestamp := ⟨y, 1, 1, 0, 0, 0⟩

/-- Upper endpoint of the slice for year `y`: pandas partial-string slicing
with the day-resolution label `f'(year)-12-31'` includes the whole day, so
the inclusive endpoint is its last second (the data is hourly, so second
resolution is exact). -/
def yearEnd (y : Nat) : Timestamp := ⟨y, 12, 31, 23, 59, 59⟩

/-- `TimeSeriesSplit.split_by_intervals`: one entry per configured year, in
order, mapping the year to `self.data.loc[f'(year)-01-01':f'(year)-12-31']`.
The source keys the dict by the string `f'(year)_data'`, which is in
bijection with the year; entries are keyed here by the year itself. -/
def split_by_intervals (f : Frame) (intervals : List Nat) :
    List (Nat × Frame) :=
  intervals.map (fun y => (y, locSlice f (yearStart y) (yearEnd y)))

/-- The module-level `years` list. -/
def years : List Nat := [2017, 2018, 2019, 2020, 2021, 2022, 2023, 2024]

/-- The module-level `color_palettes` list. -/
def color_palettes : List String := ["orange", "purple", "brown", "blue", "olive"]

/-- The candlestick trace built from a year's partition: its time index and
the four OHLC columns. -/
structure Candles where
  x : List Timestamp
  open_ : List ℚ
  high : List ℚ
  low : List ℚ
  close : List ℚ
deriving DecidableEq, Repr

/-- One `go.Scatter` overlay trace: the indicator name, the shared time
index, the indicator values and the line color. -/
structure Trace where
  name : String
  x : List Timestamp
  y : List ℚ
  color : String
deriving DecidableEq, Repr

/-- The figure returned to the renderer: candlestick plus overlay traces. -/
structure Fig where
  candles : Candles
  traces : List Trace
deriving DecidableEq, Repr

/-- `year_data[name]`: pandas column access succeeds for any column of the
frame — the four price columns or any derived column; anything else raises
`KeyError`. -/
def Frame.getCol (f : Frame) (name : String) : Option (List ℚ) :=
  if name = "open" then some f.open_
  else if name = "high" then some f.high
  else if name = "low" then some f.low
  else if name = "close" then some f.close
  else f.cols.lookup name

/-- The trace-building loop of `display_candlestick`: for the `i`-th selected
column, looks the column up in the year's partition (raising `KeyError` when
absent) and builds a `Scatter` trace colored by
`color_palettes[i % len(color_palettes)]`. -/
def buildTraces (f : Frame) : Nat → List String → Except String (List Trace)
  | _, [] => .ok []
  | i, c :: cs =>
    match f.getCol c with
    | none => .error ("KeyError: " ++ c)
    | some ys =>
      match buildTraces f (i + 1) cs with
      | .error e => .error e
      | .ok rest =>
        .ok ({ name := c, x := f.index, y := ys,
               color := color_palettes.getD (i % color_palettes.length) "" } :: rest)

/-- `display_candlestick(dark_mode, selected_indicators, selected_year)`:
looks the year's partition up in `split_data` (`KeyError` when the year is
unknown), builds the candlestick from its index and OHLC columns, adds one
trace per selected indicator column limited to the first 5
(`selected_indicators[:5]`), and returns the figure together with the
container class derived from the dark-mode checklist. -/
def display_candlestick (split_data : List (Nat × Frame))
    (dark_mode : List String) (selected_indicators : List String)
    (selected_year : Nat) : Except String (Fig × String) :=
  match split_data.lookup selected_year with
  | none => .error ("KeyError: " ++ toString selected_year ++ "_data")
  | some year_data =>
    match buildTraces year_data 0 (selected_indicators.take 5) with
    | .error e => .error e
    | .ok traces =>
      .ok ({ candles := { x := year_data.index, open_ := year_data.open_,
                          high := year_data.high, low := year_data.low,
                          close := year_data.close },
             traces := traces },
           if dark_mode.contains "dark" then "dark-mode" else "light-mode")

/-- Whether an `Except`-modelled computation completed without raising. -/
def okB {α : Type} : Except String α → Bool
  | .ok _ => true
  | .error _ => false

/-- A small concrete ingested frame (`df` after loading and indexing):
two hourly rows at the 2020→2021 year boundary, no derived columns. -/
def sampleFrame : Frame :=
  { index := [⟨2020, 12, 31, 23, 0, 0⟩, ⟨2021, 1, 1, 0, 0, 0⟩]
    open_ := [1, 2]
    high := [3, 4]
    low := [0, 1]
    close := [0, 1]
    cols := [] }

/-- `TechnicalIndicator(df)` applied to the sample frame. -/
def sampleEnriched : Frame := TechnicalIndicator sampleFrame

/-- `split_data` for the sample frame: the enriched frame split by the
configured years. -/
def sampleSplit : List (Nat × Frame) := split_by_intervals sampleEnriched years

/-- The ingestion contract: the timestamp index is chronologically sorted
(pandas requires a monotone index for `.loc` label slicing, under which the
contiguous slice coincides with the year filter used in `locSlice`). -/
def isSorted : List Timestamp → Bool
  | [] => true
  | [_] => true
  | a :: b :: rest => a.le b && isSorted (b :: rest)

/-- The year-2020 partition of the sample pipeline. -/
def sample2020 : Frame := locSlice sampleEnriched (yearStart 2020) (yearEnd 2020)

/-! ## EMA computation -/

theorem ewmaAux_length (α : ℚ) (xs : List ℚ) :
    ∀ num den : ℚ, (ewmaAux α num den xs).length = xs.length := by
  induction xs with
  | nil => intro num den; rfl
  | cons x xs ih =>
    intro num den
    simp only [ewmaAux, List.length_cons, ih]

theorem calc_ema_length (w : Nat) (close : List ℚ) :
    (calc_ema w close).length = close.length :=
  ewmaAux_length _ close 0 0

/-- Closed form of the accumulator loop: at position `t` it emits the
exponentially weighted mean of the seeds and the first `t+1` inputs. -/
theorem ewmaAux_getD (α : ℚ) (xs : List ℚ) :
    ∀ (num den : ℚ) (t : Nat), t < xs.length →
      (ewmaAux α num den xs).getD t 0
        = ((1 - α) ^ (t + 1) * num
            + ∑ i ∈ Finset.range (t + 1), (1 - α) ^ (t - i) * xs.getD i 0)
          / ((1 - α) ^ (t + 1) * den
            + ∑ i ∈ Finset.range (t + 1), (1 - α) ^ i) := by
  induction xs with
  | nil => intro num den t ht; simp at ht
  | cons x xs ih =>
    intro num den t ht
    cases t with
    | zero =>
      simp [ewmaAux, Finset.sum_range_one]
    | succ t =>
      have hlen : t < xs.length := by simpa using ht
      simp only [ewmaAux, List.getD_cons_succ]
      rw [ih _ _ t hlen]
      congr 1
      · conv_rhs => rw [Finset.sum_range_succ']
        simp only [Nat.add_sub_add_right, List.getD_cons_succ, List.getD_cons_zero,
          Nat.sub_zero]
        ring
      · conv_rhs => rw [Finset.sum_range_succ]
        ring

/-- C1: counterexample.  For span 9 and close sequence `[0, 1]`, the series
produced by `calc_ema` violates the claimed recurrence
`ema[t] = (2/(w+1))*close[t] + (1-2/(w+1))*ema[t-1]` at `t = 1` by far more
than the stated tolerance `1e-9`: pandas `ewm` defaults to the adjusted
(weighted-mean) convention, giving `5/9` where the recurrence gives `1/5`. -/
theorem C1_ema_recurrence_counterexample :
    ¬ (|(calc_ema 9 [0, 1]).getD 1 0
          - ((2 / (9 + 1)) * ([0, 1] : List ℚ).getD 1 0
              + (1 - 2 / (9 + 1)) * (calc_ema 9 [0, 1]).getD 0 0)|
        ≤ 1 / 1000000000) := by
  norm_num [calc_ema, ewmaAux, abs]

/-- C1 (amended): `calc_ema` computes the *adjusted* exponentially weighted
mean (the pandas `ewm(span=w).mean()` default): for every close-price
sequence, every configured span `w` and every position `t`,
`ema[t] = (Σ_(i≤t) (1-α)^(t-i)·close[i]) / (Σ_(i≤t) (1-α)^i)` with
`α = 2/(w+1)` — in particular `ema[0] = close[0]`, but for `t > 0` the value
is the weight-normalised mean, not the claimed unadjusted recurrence. -/
theorem C1_ema_adjusted_mean (w : Nat) (close : List ℚ) (t : Nat)
    (hw : w ∈ emaIntervals) (ht : t < close.length) :
    (calc_ema w close).getD t 0
      = (∑ i ∈ Finset.range (t + 1),
            (1 - 2 / ((w : ℚ) + 1)) ^ (t - i) * close.getD i 0)
        / (∑ i ∈ Finset.range (t + 1), (1 - 2 / ((w : ℚ) + 1)) ^ i) := by
  have h := ewmaAux_getD (2 / ((w : ℚ) + 1)) close 0 0 t ht
  simpa [calc_ema] using h

/-! ## Enrichment with indicator columns -/

theorem setCol_not_mem (name : String) (vals : List ℚ)
    (cols : List (String × List ℚ)) (h : name ∉ cols.map Prod.fst) :
    setCol name vals cols = cols ++ [(name, vals)] := by
  unfold setCol
  have h1 : cols.any (fun c => decide (c.1 = name)) = false := by
    rw [List.any_eq_false]
    intro c hc
    simp only [decide_eq_true_eq]
    intro he
    exact h (List.mem_map.mpr ⟨c, hc, he⟩)
  simp [h1]

theorem addEmas_index (ws : List Nat) : ∀ f : Frame,
    (addEmas ws f).index = f.index ∧ (addEmas ws f).open_ = f.open_ ∧
    (addEmas ws f).high = f.high ∧ (addEmas ws f).low = f.low ∧
    (addEmas ws f).close = f.close := by
  induction ws with
  | nil => intro f; exact ⟨rfl, rfl, rfl, rfl, rfl⟩
  | cons w ws ih =>
    intro f
    simpa only [addEmas] using ih { f with cols := setCol (emaName w) (calc_ema w f.close) f.cols }

theorem addEmas_cols (ws : List Nat) : ∀ f : Frame,
    (∀ w ∈ ws, emaName w ∉ f.cols.map Prod.fst) → (ws.map emaName).Nodup →
    (addEmas ws f).cols
      = f.cols ++ ws.map (fun w => (emaName w, calc_ema w f.close)) := by
  induction ws with
  | nil => intro f _ _; simp [addEmas]
  | cons w ws ih =>
    intro f hfresh hnodup
    simp only [addEmas]
    rw [setCol_not_mem _ _ _ (hfresh w (List.mem_cons_self w ws))]
    rw [List.map_cons] at hnodup
    have hnd := List.nodup_cons.mp hnodup
    have hstep := ih { f with cols := f.cols ++ [(emaName w, calc_ema w f.close)] }
      (by
        intro w' hw'
        simp only [List.map_append, List.mem_append, List.map_cons, List.map_nil,
          List.mem_singleton, not_or]
        refine ⟨hfresh w' (List.mem_cons_of_mem w hw'), ?_⟩
        intro he
        exact hnd.1 (he ▸ List.mem_map.mpr ⟨w', hw', rfl⟩))
      hnd.2
    simpa [List.append_assoc] using hstep

theorem lookup_append_not_mem {β : Type} (k : String)
    (l1 l2 : List (String × β)) (h : k ∉ l1.map Prod.fst) :
    (l1 ++ l2).lookup k = l2.lookup k := by
  induction l1 with
  | nil => rfl
  | cons c l1 ih =>
    obtain ⟨k1, v1⟩ := c
    have hne : k ≠ k1 := by
      intro he
      exact h (List.mem_map.mpr ⟨(k1, v1), List.mem_cons_self _ l1, he.symm⟩)
    have hbeq : (k == k1) = false := beq_eq_false_iff_ne.mpr hne
    simp only [List.cons_append, List.lookup, hbeq]
    refine ih ?_
    intro hm
    simp only [List.map_cons, List.mem_cons] at h
    exact h (Or.inr hm)

theorem lookup_map_key {γ : Type} (key : Nat → String) (val : Nat → γ) :
    ∀ (ws : List Nat) (w : Nat), w ∈ ws → (ws.map key).Nodup →
      (ws.map (fun v => (key v, val v))).lookup (key w) = some (val w) := by
  intro ws
  induction ws with
  | nil => intro w hw _; cases hw
  | cons w0 ws ih =>
    intro w hw hnodup
    rw [List.map_cons] at hnodup
    have hnd := List.nodup_cons.mp hnodup
    rcases List.mem_cons.mp hw with he | hm
    · subst he
      simp [List.lookup]
    · have hne : key w ≠ key w0 := by
        intro he
        exact hnd.1 (he ▸ List.mem_map.mpr ⟨w, hm, rfl⟩)
      have hbeq : (key w == key w0) = false := beq_eq_false_iff_ne.mpr hne
      simp only [List.map_cons, List.lookup, hbeq]
      exact ih w hm hnd.2

theorem calc_ema_checked_ok (w : Nat) (close : List ℚ) (hw : w ≠ 0) :
    calc_ema_checked w close = .ok (calc_ema w close) := by
  unfold calc_ema_checked
  rw [if_neg (by omega)]

/-- When every span passes the pandas `span >= 1` validation, the checked
initialisation loop succeeds and produces exactly the enriched frame. -/
theorem tiWith_eq_ok : ∀ (ws : List Nat) (f : Frame), 0 ∉ ws →
    TechnicalIndicatorWith ws f = .ok (addEmas ws f) := by
  intro ws
  induction ws with
  | nil => intro f _; rfl
  | cons w ws ih =>
    intro f h
    have hw : w ≠ 0 := by
      intro he
      exact h (he ▸ List.mem_cons_self w ws)
    simp only [TechnicalIndicatorWith, calc_ema_checked_ok w f.close hw, addEmas]
    exact ih _ (fun hm => h (List.mem_cons_of_mem w hm))

/-- The checked initialisation loop fails exactly when some configured span
fails the pandas `span >= 1` validation; no other configuration is
rejected. -/
theorem tiWith_fails_iff : ∀ (spans : List Nat) (f : Frame),
    okB (TechnicalIndicatorWith spans f) = false ↔ 0 ∈ spans := by
  intro spans
  induction spans with
  | nil => intro f; simp [TechnicalIndicatorWith, okB]
  | cons w ws ih =>
    intro f
    by_cases hw : w = 0
    · subst hw
      simp [TechnicalIndicatorWith, calc_ema_checked, okB]
    · simp only [TechnicalIndicatorWith, calc_ema_checked_ok w f.close hw]
      rw [ih]
      constructor
      · exact fun h => List.mem_cons_of_mem w h
      · intro h
        rcases List.mem_cons.mp h with he | hm
        · exact absurd he.symm hw
        · exact hm

/-- C4: for every input frame (whose columns do not already use the reserved
`ema_` names), the enrichment leaves the timestamp index unchanged and every
produced indicator column has exactly the length of the source close-price
sequence, hence shares its time index positionally. -/
theorem C4_index_alignment (f : Frame)
    (hfresh : ∀ w ∈ emaIntervals, emaName w ∉ f.cols.map Prod.fst) :
    (TechnicalIndicator f).index = f.index ∧
    ∀ w ∈ emaIntervals,
      (TechnicalIndicator f).cols.lookup (emaName w) = some (calc_ema w f.close) ∧
      (calc_ema w f.close).length = f.close.length := by
  refine ⟨(addEmas_index emaIntervals f).1, ?_⟩
  intro w hw
  refine ⟨?_, calc_ema_length w f.close⟩
  unfold TechnicalIndicator
  rw [addEmas_cols emaIntervals f hfresh (by decide)]
  rw [lookup_append_not_mem _ _ _ (hfresh w hw)]
  exact lookup_map_key emaName (fun v => calc_ema v f.close) emaIntervals w hw (by decide)

/-- Witness for C4 at the sample frame. -/
theorem C4_index_alignment_witness :
    (∀ w ∈ emaIntervals, emaName w ∉ sampleFrame.cols.map Prod.fst) ∧
    ((TechnicalIndicator sampleFrame).index = sampleFrame.index ∧
    ∀ w ∈ emaIntervals,
      (TechnicalIndicator sampleFrame).cols.lookup (emaName w)
          = some (calc_ema w sampleFrame.close) ∧
      (calc_ema w sampleFrame.close).length = sampleFrame.close.length) :=
  ⟨by decide, C4_index_alignment sampleFrame (by decide)⟩

/-- C7: the enrichment does not mutate the price data — index, open, high,
low and close are unchanged — and (when the `ema_` names are fresh) the only
change is appending the new indicator columns, each computed from the
original close sequence. -/
theorem C7_no_price_mutation (f : Frame)
    (hfresh : ∀ w ∈ emaIntervals, emaName w ∉ f.cols.map Prod.fst) :
    (TechnicalIndicator f).index = f.index ∧
    (TechnicalIndicator f).open_ = f.open_ ∧
    (TechnicalIndicator f).high = f.high ∧
    (TechnicalIndicator f).low = f.low ∧
    (TechnicalIndicator f).close = f.close ∧
    (TechnicalIndicator f).cols
      = f.cols ++ emaIntervals.map (fun w => (emaName w, calc_ema w f.close)) := by
  obtain ⟨h1, h2, h3, h4, h5⟩ := addEmas_index emaIntervals f
  exact ⟨h1, h2, h3, h4, h5, addEmas_cols emaIntervals f hfresh (by decide)⟩

/-- Witness for C7 at the sample frame. -/
theorem C7_no_price_mutation_witness :
    (∀ w ∈ emaIntervals, emaName w ∉ sampleFrame.cols.map Prod.fst) ∧
    ((TechnicalIndicator sampleFrame).index = sampleFrame.index ∧
    (TechnicalIndicator sampleFrame).open_ = sampleFrame.open_ ∧
    (TechnicalIndicator sampleFrame).high = sampleFrame.high ∧
    (TechnicalIndicator sampleFrame).low = sampleFrame.low ∧
    (TechnicalIndicator sampleFrame).close = sampleFrame.close ∧
    (TechnicalIndicator sampleFrame).cols
      = sampleFrame.cols
        ++ emaIntervals.map (fun w => (emaName w, calc_ema w sampleFrame.close))) :=
  ⟨by decide, C7_no_price_mutation sampleFrame (by decide)⟩

/-- C8: on an empty price series the enrichment raises no error (the checked
initialisation succeeds) and every configured window's indicator column is
the empty series. -/
theorem C8_empty_series (f : Frame)
    (hfresh : ∀ w ∈ emaIntervals, emaName w ∉ f.cols.map Prod.fst)
    (hempty : f.close = []) :
    okB (TechnicalIndicatorWith emaIntervals f) = true ∧
    (TechnicalIndicator f).cols
      = f.cols ++ emaIntervals.map (fun w => (emaName w, ([] : List ℚ))) := by
  constructor
  · rw [tiWith_eq_ok emaIntervals f (by decide)]
    rfl
  · rw [TechnicalIndicator, addEmas_cols emaIntervals f hfresh (by decide), hempty]
    rfl

/-- Witness for C8 at an empty frame. -/
theorem C8_empty_series_witness :
    ((∀ w ∈ emaIntervals,
        emaName w ∉ (Frame.mk [] [] [] [] [] []).cols.map Prod.fst) ∧
      (Frame.mk [] [] [] [] [] []).close = []) ∧
    (okB (TechnicalIndicatorWith emaIntervals (Frame.mk [] [] [] [] [] [])) = true ∧
    (TechnicalIndicator (Frame.mk [] [] [] [] [] [])).cols
      = (Frame.mk [] [] [] [] [] []).cols
        ++ emaIntervals.map (fun w => (emaName w, ([] : List ℚ)))) :=
  ⟨⟨by decide, rfl⟩, C8_empty_series (Frame.mk [] [] [] [] [] []) (by decide) rfl⟩

/-- C9: counterexample.  A configuration with a duplicate smoothing window
(`[9, 9]`) initialises without any error — the duplicate assignment silently
overwrites the column — and an empty year list is likewise accepted, the
split simply producing an empty partition map; no `ConfigurationError` is
raised in either case, refuting the claim. -/
theorem C9_config_validation_counterexample :
    okB (TechnicalIndicatorWith [9, 9] sampleFrame) = true ∧
    split_by_intervals sampleFrame [] = [] := by
  constructor
  · rw [tiWith_eq_ok [9, 9] sampleFrame (by decide)]
    rfl
  · rfl

/-- C9 (amended): initialization performs no configuration validation of its
own.  It fails exactly when some configured span fails the smoothing
library's own `span >= 1` check (for natural-number spans: the span is 0);
duplicate windows are accepted silently (the later assignment overwrites the
same column) and an empty year list is accepted silently (the split returns
an empty partition map). -/
theorem C9_no_config_validation (spans : List Nat) (f : Frame) :
    (okB (TechnicalIndicatorWith spans f) = false ↔ 0 ∈ spans) ∧
    split_by_intervals f [] = [] :=
  ⟨tiWith_fails_iff spans f, rfl⟩

/-! ## Calendar-year partitioning -/

theorem yearStart_le_iff (y : Nat) (t : Timestamp) (hv : validTs t) :
    ((yearStart y).le t = true) ↔ y ≤ t.year := by
  obtain ⟨Y, M, D, H, Mi, S⟩ := t
  obtain ⟨h1, h2, h3, h4, h5, h6, h7⟩ := hv
  simp only [Timestamp.le, yearStart]
  split_ifs <;> simp only [decide_eq_true_eq, ne_eq, not_not] at * <;> omega

theorem le_yearEnd_iff (y : Nat) (t : Timestamp) (hv : validTs t) :
    (t.le (yearEnd y) = true) ↔ t.year ≤ y := by
  obtain ⟨Y, M, D, H, Mi, S⟩ := t
  obtain ⟨h1, h2, h3, h4, h5, h6, h7⟩ := hv
  simp only [Timestamp.le, yearEnd]
  split_ifs <;> simp only [decide_eq_true_eq, ne_eq, not_not] at * <;> omega

/-- A calendar-valid timestamp lies in the closed slice
`[Y-01-01 00:00:00, Y-12-31 23:59:59]` exactly when its calendar year is
`Y`. -/
theorem inYearSlice_iff (y : Nat) (t : Timestamp) (hv : validTs t) :
    (((yearStart y).le t && t.le (yearEnd y)) = true) ↔ t.year = y := by
  rw [Bool.and_eq_true, yearStart_le_iff y t hv, le_yearEnd_iff y t hv]
  omega

theorem lookup_split_by_intervals (f : Frame) (l : List Nat) (y : Nat) :
    (split_by_intervals f l).lookup y
      = if y ∈ l then some (locSlice f (yearStart y) (yearEnd y)) else none := by
  induction l with
  | nil => simp [split_by_intervals]
  | cons y0 l ih =>
    unfold split_by_intervals at ih ⊢
    simp only [List.map_cons, List.lookup]
    by_cases he : y = y0
    · subst he
      simp [List.mem_cons]
    · have hbeq : (y == y0) = false := beq_eq_false_iff_ne.mpr he
      simp only [hbeq, ih, List.mem_cons, he, false_or]

theorem mem_of_mem_locSlice (f : Frame) (lo hi t : Timestamp)
    (h : t ∈ (locSlice f lo hi).index) : t ∈ f.index := by
  simp only [locSlice, List.mem_filter] at h
  exact h.1

/-- A calendar-valid timestamp belongs to the year-`y` slice of a frame
exactly when it is a row of the frame and its calendar year is `y`. -/
theorem mem_locSlice_index (f : Frame) (y : Nat) (t : Timestamp)
    (hv : validTs t) :
    t ∈ (locSlice f (yearStart y) (yearEnd y)).index
      ↔ t ∈ f.index ∧ t.year = y := by
  simp only [locSlice, List.mem_filter]
  rw [inYearSlice_iff y t hv]

/-- C2: on a chronologically sorted input, the year partitioning assigns a
row timestamped `Y-12-31 23:59:59` to partition `Y` (and not to partition
`Y+1`), and a row timestamped `(Y+1)-01-01 00:00:00` to partition `Y+1` (and
not to partition `Y`) — the `.loc` slice for year `Y` is inclusive of the
whole day `Y-12-31`. -/
theorem C2_partition_boundary (f : Frame) (intervals : List Nat) (y : Nat)
    (hsorted : isSorted f.index = true)
    (hy : y ∈ intervals) (hy1 : y + 1 ∈ intervals) :
    ∃ gY gY1,
      (split_by_intervals f intervals).lookup y = some gY ∧
      (split_by_intervals f intervals).lookup (y + 1) = some gY1 ∧
      (Timestamp.mk y 12 31 23 59 59 ∈ f.index →
        Timestamp.mk y 12 31 23 59 59 ∈ gY.index ∧
        Timestamp.mk y 12 31 23 59 59 ∉ gY1.index) ∧
      (Timestamp.mk (y + 1) 1 1 0 0 0 ∈ f.index →
        Timestamp.mk (y + 1) 1 1 0 0 0 ∈ gY1.index ∧
        Timestamp.mk (y + 1) 1 1 0 0 0 ∉ gY.index) := by
  refine ⟨locSlice f (yearStart y) (yearEnd y),
    locSlice f (yearStart (y + 1)) (yearEnd (y + 1)), ?_, ?_, ?_, ?_⟩
  · rw [lookup_split_by_intervals, if_pos hy]
  · rw [lookup_split_by_intervals, if_pos hy1]
  · intro hmem
    have hv : validTs (Timestamp.mk y 12 31 23 59 59) := by
      refine ⟨?_, ?_, ?_, ?_, ?_, ?_, ?_⟩ <;> norm_num
    refine ⟨(mem_locSlice_index f y _ hv).mpr ⟨hmem, rfl⟩, ?_⟩
    intro hc
    have h2 : y = y + 1 := ((mem_locSlice_index f (y + 1) _ hv).mp hc).2
    omega
  · intro hmem
    have hv : validTs (Timestamp.mk (y + 1) 1 1 0 0 0) := by
      refine ⟨?_, ?_, ?_, ?_, ?_, ?_, ?_⟩ <;> norm_num
    refine ⟨(mem_locSlice_index f (y + 1) _ hv).mpr ⟨hmem, rfl⟩, ?_⟩
    intro hc
    have h2 : y + 1 = y := ((mem_locSlice_index f y _ hv).mp hc).2
    omega

/-- Witness for C2 at the sample frame (which straddles the 2020→2021
boundary) and the configured year list. -/
theorem C2_partition_boundary_witness :
    (isSorted sampleFrame.index = true ∧
      2020 ∈ years ∧ 2020 + 1 ∈ years) ∧
    (∃ gY gY1,
      (split_by_intervals sampleFrame years).lookup 2020 = some gY ∧
      (split_by_intervals sampleFrame years).lookup (2020 + 1) = some gY1 ∧
      (Timestamp.mk 2020 12 31 23 59 59 ∈ sampleFrame.index →
        Timestamp.mk 2020 12 31 23 59 59 ∈ gY.index ∧
        Timestamp.mk 2020 12 31 23 59 59 ∉ gY1.index) ∧
      (Timestamp.mk (2020 + 1) 1 1 0 0 0 ∈ sampleFrame.index →
        Timestamp.mk (2020 + 1) 1 1 0 0 0 ∈ gY1.index ∧
        Timestamp.mk (2020 + 1) 1 1 0 0 0 ∉ gY.index)) :=
  ⟨⟨by decide, by decide, by decide⟩,
    C2_partition_boundary sampleFrame years 2020 (by decide) (by decide) (by decide)⟩

/-- C3: on a sorted input with calendar-valid timestamps, a timestamp lies
in some produced year partition exactly when it is a row of the input whose
calendar year is configured (coverage), and no timestamp lies in two
partitions for distinct years (disjointness). -/
theorem C3_partition_disjoint_cover (f : Frame) (intervals : List Nat)
    (hsorted : isSorted f.index = true)
    (hvalid : ∀ t ∈ f.index, validTs t) :
    (∀ t : Timestamp,
      (∃ y ∈ intervals, ∃ g,
          (split_by_intervals f intervals).lookup y = some g ∧ t ∈ g.index)
        ↔ (t ∈ f.index ∧ t.year ∈ intervals)) ∧
    (∀ y1 ∈ intervals, ∀ y2 ∈ intervals, y1 ≠ y2 →
      ∀ g1 g2 : Frame,
        (split_by_intervals f intervals).lookup y1 = some g1 →
        (split_by_intervals f intervals).lookup y2 = some g2 →
        ∀ t ∈ g1.index, t ∉ g2.index) := by
  constructor
  · intro t
    constructor
    · rintro ⟨y, hy, g, hg, ht⟩
      rw [lookup_split_by_intervals, if_pos hy] at hg
      obtain rfl : locSlice f (yearStart y) (yearEnd y) = g := by
        injection hg
      have hmem : t ∈ f.index := mem_of_mem_locSlice f _ _ t ht
      have hyr := ((mem_locSlice_index f y t (hvalid t hmem)).mp ht).2
      exact ⟨hmem, hyr ▸ hy⟩
    · rintro ⟨hmem, hyear⟩
      refine ⟨t.year, hyear, locSlice f (yearStart t.year) (yearEnd t.year), ?_, ?_⟩
      · rw [lookup_split_by_intervals, if_pos hyear]
      · exact (mem_locSlice_index f t.year t (hvalid t hmem)).mpr ⟨hmem, rfl⟩
  · intro y1 hy1 y2 hy2 hne g1 g2 hg1 hg2 t ht1 ht2
    rw [lookup_split_by_intervals, if_pos hy1] at hg1
    rw [lookup_split_by_intervals, if_pos hy2] at hg2
    obtain rfl : locSlice f (yearStart y1) (yearEnd y1) = g1 := by injection hg1
    obtain rfl : locSlice f (yearStart y2) (yearEnd y2) = g2 := by injection hg2
    have hmem : t ∈ f.index := mem_of_mem_locSlice f _ _ t ht1
    have e1 := ((mem_locSlice_index f y1 t (hvalid t hmem)).mp ht1).2
    have e2 := ((mem_locSlice_index f y2 t (hvalid t hmem)).mp ht2).2
    exact hne (e1 ▸ e2 ▸ rfl)

/-- Witness for C3 at the sample frame and the year set containing 2020 and
2021. -/
theorem C3_partition_disjoint_cover_witness :
    (isSorted sampleFrame.index = true ∧
      ∀ t ∈ sampleFrame.index, validTs t) ∧
    ((∀ t : Timestamp,
      (∃ y ∈ [2020, 2021], ∃ g,
          (split_by_intervals sampleFrame [2020, 2021]).lookup y = some g ∧
            t ∈ g.index)
        ↔ (t ∈ sampleFrame.index ∧ t.year ∈ [2020, 2021])) ∧
    (∀ y1 ∈ [2020, 2021], ∀ y2 ∈ [2020, 2021], y1 ≠ y2 →
      ∀ g1 g2 : Frame,
        (split_by_intervals sampleFrame [2020, 2021]).lookup y1 = some g1 →
        (split_by_intervals sampleFrame [2020, 2021]).lookup y2 = some g2 →
        ∀ t ∈ g1.index, t ∉ g2.index)) :=
  ⟨⟨by decide, by decide⟩,
    C3_partition_disjoint_cover sampleFrame [2020, 2021] (by decide) (by decide)⟩

/-- Witness for C1 (amended) at span 9, close sequence `[0, 1]`, `t = 1`. -/
theorem C1_ema_adjusted_mean_witness :
    (9 ∈ emaIntervals ∧ 1 < ([0, 1] : List ℚ).length) ∧
    (calc_ema 9 [0, 1]).getD 1 0
      = (∑ i ∈ Finset.range (1 + 1),
            (1 - 2 / (((9 : Nat) : ℚ) + 1)) ^ (1 - i) * ([0, 1] : List ℚ).getD i 0)
        / (∑ i ∈ Finset.range (1 + 1), (1 - 2 / (((9 : Nat) : ℚ) + 1)) ^ i) :=
  ⟨⟨by decide, by decide⟩, C1_ema_adjusted_mean 9 [0, 1] 1 (by decide) (by decide)⟩

/-! ## Query path -/

/-- When every selected column exists in the partition, the trace loop
succeeds and produces one trace per selected name, in caller order, carrying
exactly that column's values. -/
theorem buildTraces_ok (f : Frame) : ∀ (cs : List String) (i : Nat),
    (∀ c ∈ cs, (f.getCol c).isSome) →
    ∃ ts, buildTraces f i cs = .ok ts ∧
      ts.map (fun tr => (tr.name, tr.y))
        = cs.map (fun c => (c, (f.getCol c).getD [])) := by
  intro cs
  induction cs with
  | nil => intro i _; exact ⟨[], rfl, rfl⟩
  | cons c cs ih =>
    intro i hall
    have hc := hall c (List.mem_cons_self c cs)
    obtain ⟨ys, hys⟩ := Option.isSome_iff_exists.mp hc
    obtain ⟨ts, hts, hmap⟩ :=
      ih (i + 1) (fun c1 hc1 => hall c1 (List.mem_cons_of_mem c hc1))
    refine ⟨{ name := c, x := f.index, y := ys,
              color := color_palettes.getD (i % color_palettes.length) "" } :: ts,
      ?_, ?_⟩
    · simp only [buildTraces, hys, hts]
    · simp only [List.map_cons, hmap, hys, Option.getD_some]

/-- The trace loop fails exactly when some selected name is not a column of
the partition. -/
theorem buildTraces_fails_iff (f : Frame) : ∀ (cs : List String) (i : Nat),
    okB (buildTraces f i cs) = false ↔ ∃ c ∈ cs, f.getCol c = none := by
  intro cs
  induction cs with
  | nil =>
    intro i
    simp [buildTraces, okB]
  | cons c cs ih =>
    intro i
    cases hc : f.getCol c with
    | none =>
      simp only [buildTraces, hc, okB]
      constructor
      · intro _
        exact ⟨c, List.mem_cons_self c cs, hc⟩
      · intro _
        trivial
    | some ys =>
      cases h2 : buildTraces f (i + 1) cs with
      | error e =>
        simp only [buildTraces, hc, h2, okB]
        constructor
        · intro _
          obtain ⟨c1, hc1, he⟩ := (ih (i + 1)).mp (by rw [h2]; rfl)
          exact ⟨c1, List.mem_cons_of_mem c hc1, he⟩
        · intro _
          trivial
      | ok ts =>
        simp only [buildTraces, hc, h2, okB]
        constructor
        · intro hfalse
          cases hfalse
        · rintro ⟨c1, hmem, hnone⟩
          rcases List.mem_cons.mp hmem with he | hm
          · rw [he] at hnone
            rw [hnone] at hc
            cases hc
          · have hfail := (ih (i + 1)).mpr ⟨c1, hm, hnone⟩
            rw [h2] at hfail
            cases hfail

/-- C5: when the year is known and the first five requested names are
columns of its partition, the query succeeds and returns exactly the series
of the first five requested indicators, in caller-supplied order — any
further requested names are dropped by the `[:5]` truncation.  (The model is
a pure function, so repeated identical requests are definitionally
identical.) -/
theorem C5_truncation_first_five (split_data : List (Nat × Frame))
    (dark_mode : List String) (inds : List String) (y : Nat) (yd : Frame)
    (hy : split_data.lookup y = some yd)
    (hall : ∀ c ∈ inds.take 5, (yd.getCol c).isSome) :
    ∃ fig cls,
      display_candlestick split_data dark_mode inds y = .ok (fig, cls) ∧
      fig.traces.map (fun tr => (tr.name, tr.y))
        = (inds.take 5).map (fun c => (c, (yd.getCol c).getD [])) := by
  obtain ⟨ts, hts, hmap⟩ := buildTraces_ok yd (inds.take 5) 0 hall
  refine ⟨{ candles := { x := yd.index, open_ := yd.open_, high := yd.high,
                         low := yd.low, close := yd.close },
            traces := ts },
    if dark_mode.contains "dark" then "dark-mode" else "light-mode", ?_, ?_⟩
  · simp only [display_candlestick, hy, hts]
  · exact hmap

/-- Witness for C5: a seven-indicator request against the 2020 partition of
the sample pipeline returns exactly the first five series. -/
theorem C5_truncation_first_five_witness :
    (sampleSplit.lookup 2020 = some sample2020 ∧
      (∀ c ∈ (["ema_9", "ema_12", "ema_21", "ema_30", "ema_50", "ema_80",
                "ema_100"] : List String).take 5,
        (sample2020.getCol c).isSome)) ∧
    (∃ fig cls,
      display_candlestick sampleSplit []
          ["ema_9", "ema_12", "ema_21", "ema_30", "ema_50", "ema_80", "ema_100"]
          2020
        = .ok (fig, cls) ∧
      fig.traces.map (fun tr => (tr.name, tr.y))
        = ((["ema_9", "ema_12", "ema_21", "ema_30", "ema_50", "ema_80",
             "ema_100"] : List String).take 5).map
            (fun c => (c, (sample2020.getCol c).getD []))) :=
  ⟨⟨rfl, by decide⟩,
    C5_truncation_first_five sampleSplit []
      ["ema_9", "ema_12", "ema_21", "ema_30", "ema_50", "ema_80", "ema_100"]
      2020 sample2020 rfl (by decide)⟩

/-- C6: counterexample.  `"open"` is not one of the names produced by the
indicator computation, 2020 is a configured year, and yet the query for
`["open"]` succeeds (pandas column access accepts any column of the frame,
the price columns included) — refuting the claim that every request naming a
non-indicator raises an error. -/
theorem C6_unknown_indicator_counterexample :
    ("open" ∉ emaIntervals.map emaName) ∧ 2020 ∈ years ∧
    okB (display_candlestick sampleSplit [] ["open"] 2020) = true := by
  refine ⟨by decide, by decide, by decide⟩

/-- C6 (amended): the query raises an error exactly when the year label is
not a key of the partition map, or one of the *first five* requested names
(the ones surviving the `[:5]` truncation) is not a column of that year's
partition — OHLC price columns count as columns, so requesting them does not
raise, and names at position six or later are never looked up. -/
theorem C6_query_error_iff (split_data : List (Nat × Frame))
    (dark_mode : List String) (inds : List String) (y : Nat) :
    okB (display_candlestick split_data dark_mode inds y) = false
      ↔ (split_data.lookup y = none ∨
          ∃ yd, split_data.lookup y = some yd ∧
            ∃ c ∈ inds.take 5, yd.getCol c = none) := by
  cases hy : split_data.lookup y with
  | none => simp [display_candlestick, hy, okB]
  | some yd =>
    simp only [display_candlestick, hy]
    cases ht : buildTraces yd 0 (inds.take 5) with
    | error e =>
      simp only [okB]
      constructor
      · intro _
        exact Or.inr ⟨yd, rfl,
          (buildTraces_fails_iff yd (inds.take 5) 0).mp (by rw [ht]; rfl)⟩
      · intro _
        trivial
    | ok ts =>
      simp only [okB]
      constructor
      · intro hfalse
        cases hfalse
      · rintro (h | ⟨yd1, hyd1, c, hc, hnone⟩)
        · cases h
        · obtain rfl : yd = yd1 := by injection hyd1
          have hfail := (buildTraces_fails_iff yd (inds.take 5) 0).mpr ⟨c, hc, hnone⟩
          rw [ht] at hfail
          cases hfail

/-- C10: the `[:5]` truncation happens before any indicator name is looked
up, so a request whose first five names are followed by anything — known or
unknown — behaves exactly like the request for the first five names alone. -/
theorem C10_truncation_before_lookup (split_data : List (Nat × Frame))
    (dark_mode : List String) (first5 extra : List String) (y : Nat)
    (h5 : first5.length = 5) :
    display_candlestick split_data dark_mode (first5 ++ extra) y
      = display_candlestick split_data dark_mode first5 y := by
  unfold display_candlestick
  rw [show (first5 ++ extra).take 5 = first5 by rw [← h5, List.take_left],
    show first5.take 5 = first5 by rw [← h5, List.take_length]]

/-- Witness for C10: five valid indicator names followed by the unknown name
`"bogus"` behave exactly like the five names alone, and the request
succeeds. -/
theorem C10_truncation_before_lookup_witness :
    ((["ema_9", "ema_12", "ema_21", "ema_30", "ema_50"] : List String).length
        = 5) ∧
    display_candlestick sampleSplit []
        (["ema_9", "ema_12", "ema_21", "ema_30", "ema_50"] ++ ["bogus"]) 2020
      = display_candlestick sampleSplit []
          ["ema_9", "ema_12", "ema_21", "ema_30", "ema_50"] 2020 ∧
    okB (display_candlestick sampleSplit []
        (["ema_9", "ema_12", "ema_21", "ema_30", "ema_50"] ++ ["bogus"]) 2020)
      = true :=
  ⟨by decide,
    C10_truncation_before_lookup sampleSplit []
      ["ema_9", "ema_12", "ema_21", "ema_30", "ema_50"] ["bogus"] 2020
      (by decide),
    by decide⟩
